import Mathlib

/-!
# Verification of the CIDRGuardian allocation engine

Shallow embedding of `pool.go` and `memory_storage.go` from
`songzhibin97/CIDRGuardian`.

Modelling decisions:
* IPv4 addresses are naturals below `2^32`; the dotted-quad string that Go
  stores as a map key is recovered by `ipStr`/`ipBytes`.  `ipStr` is injective
  on that range, so string equality of keys in the Go maps corresponds to
  equality of the naturals, and the string-lexicographic ordering used by
  `sort.Strings` is realised by `sortIPStrings` below.
* A `context.Context` is represented by the flag `ctx : Bool`, `true` meaning
  "already cancelled" (`ctx.Err() ≠ nil`).  Go only ever *polls* `ctx.Err()`,
  so a constant flag is a faithful model of a context that is either live or
  cancelled for the whole call.
* Go maps become a `Finset ℕ` (the `available` set, values are always `true`)
  and an `AList` (the `allocated` map and the registry of managed CIDRs; an
  association list with no duplicate keys).  Go map iteration order is
  unspecified; every place the code depends on an order it sorts explicitly,
  which the embedding mirrors.
* A syntactically valid CIDR string "a.b.c.d/n" is represented by its parsed
  form: the pair of its (possibly unmasked) base address and prefix length,
  exactly the data `net.ParseCIDR` yields.  `fmt.Sprintf("%s/%d", ...)` is
  `cidrStr`.
* Errors become the inductive `PoolErr`; `AddCIDR`'s substring test
  `strings.Contains(err.Error(), "已被分配")` recognises exactly the storage
  error raised by `AddIP` on an allocated address, i.e. `alreadyAllocated`.
-/

/-- The decimal-digit bytes of one octet (0 ≤ n ≤ 255), most significant
first; `48` is the byte `'0'`. -/
def octDigits (n : ℕ) : List ℕ :=
  if n < 10 then [n + 48]
  else if n < 100 then [n / 10 + 48, n % 10 + 48]
  else [n / 100 + 48, n / 10 % 10 + 48, n % 10 + 48]

/-- The bytes of the dotted-quad rendering of an address, Go's
`net.IP.String()` on a 4-byte IP; `46` is the byte `'.'`. -/
def ipBytes (a : ℕ) : List ℕ :=
  octDigits (a / 2 ^ 24 % 256) ++ 46 ::
    (octDigits (a / 2 ^ 16 % 256) ++ 46 ::
      (octDigits (a / 2 ^ 8 % 256) ++ 46 :: octDigits (a % 256)))

/-- Dotted-quad rendering of an address as a string. -/
def ipStr (a : ℕ) : String := String.mk ((ipBytes a).map Char.ofNat)

/-- Byte-wise lexicographic `≤`, the order `sort.Strings` uses on the
(ASCII) dotted-quad keys. -/
def natListLe : List ℕ → List ℕ → Bool
  | [], _ => true
  | _ :: _, [] => false
  | a :: as, b :: bs =>
    if a < b then true else if b < a then false else natListLe as bs

/-- A byte list packed big-endian into one natural, zero-padded on the right
to width `w`. -/
def packKey (w : ℕ) (l : List ℕ) : ℕ :=
  l.foldl (fun n c => n * 256 + c) 0 * 256 ^ (w - l.length)

/-- The rendered bytes of an address packed big-endian into one natural,
zero-padded on the right to the maximal width 15.  Because every rendered
byte is nonzero and below 256, comparing packed keys numerically is exactly
byte-wise lexicographic comparison of the rendered strings — proved below in
`strKey_le_iff_natListLe`. -/
def strKey (a : ℕ) : ℕ := packKey 15 (ipBytes a)

/-- Insert an element into a list sorted by `le`. -/
def insertBy (le : α → α → Bool) (a : α) : List α → List α
  | [] => [a]
  | b :: l => if le a b then a :: b :: l else b :: insertBy le a l

/-- Insertion sort by `le`; on pairwise distinct elements of a total order it
produces the unique sorted arrangement, hence agrees with Go's `sort.Strings`
and `sort.Slice`. -/
def sortBy (le : α → α → Bool) : List α → List α
  | [] => []
  | a :: l => insertBy le a (sortBy le l)

/-- Sort a list of addresses into the order `sort.Strings` puts their
dotted-quad forms: each address is paired with the packed key of its rendered
form, the pairs are insertion-sorted by numeric key comparison (equivalently,
by byte-wise lexicographic comparison of the rendered strings, see
`strKey_le_iff_natListLe`), and the addresses are read back off.  Rendering
is injective, so this is exactly the string-ascending order of the Go code. -/
def sortIPStrings (l : List ℕ) : List ℕ :=
  (sortBy (fun x y => x.1 ≤ y.1) (l.map fun a => (strKey a, a))).map (·.2)

/-- `ip.Mask(net.CIDRMask(p, 32))`: clear the low `32 - p` bits. -/
def maskAddr (p a : ℕ) : ℕ := a / 2 ^ (32 - p) * 2 ^ (32 - p)

/-- The ascending enumeration of the block starting at `net` with `size`
addresses: the Go loop `for ip := net; ipNet.Contains(ip); nextIP(ip)`
(plus, in `AllocateCIDR`, the bound `ipCount < size`).  For `1 ≤ p` the
`Contains` test stops the walk after exactly `2^(32-p)` steps even when the
increment wraps past `255.255.255.255`. -/
def blockAddrs (net size : ℕ) : List ℕ := (List.range size).map (net + ·)

/-- `fmt.Sprintf("%s/%d", startIP, bits)`. -/
def cidrStr (base p : ℕ) : String := ipStr base ++ "/" ++ Nat.repr p

/-- Canonical ascending enumeration of a finite set of addresses.  A Go map
is iterated in an unspecified order; every consumer in the code sorts the
result before depending on the order, so any fixed enumeration is a faithful
model of the iteration. -/
def finsetAscList (s : Finset ℕ) : List ℕ :=
  Quot.liftOn s.val (fun l => l.insertionSort (· ≤ ·)) fun l₁ l₂ h =>
    List.eq_of_perm_of_sorted
      ((List.perm_insertionSort _ l₁).trans (h.trans (List.perm_insertionSort _ l₂).symm))
      (List.sorted_insertionSort _ l₁) (List.sorted_insertionSort _ l₂)

/-- The error outcomes of the pool and its storage, one constructor per
distinct `fmt.Errorf` site reachable in the embedded operations. -/
inductive PoolErr where
  /-- `ctx.Err()` of a cancelled context. -/
  | cancelled : PoolErr
  /-- storage `AddIP`: "IP %s 已被分配". -/
  | alreadyAllocated (ip : String) : PoolErr
  /-- storage `RemoveIP`/`AllocateIP`: "IP %s 不在可用池中". -/
  | notInAvailable (ip : String) : PoolErr
  /-- storage `DeallocateIP`: "IP %s 不在已分配池中". -/
  | notInAllocated (ip : String) : PoolErr
  /-- `AllocateCIDR`: "无效的子网掩码位数: %d". -/
  | invalidBits (n : ℕ) : PoolErr
  /-- `AllocateCIDR`: "没有足够的IP可以分配 /%d 子网". -/
  | noCapacity (bits : ℕ) : PoolErr
  /-- `AllocateCIDR`: "没有找到网络对齐的起始IP". -/
  | noAligned : PoolErr
  /-- `AllocateCIDR` step 10: "IP %s 不可用". -/
  | ipUnavailable (ip : String) : PoolErr
  /-- `AddCIDR`: "CIDR %s 已在管理池中". -/
  | duplicateCIDR (c : String) : PoolErr
  /-- `removeCIDRWithoutLock`: "CIDR %s 不在管理池中". -/
  | notManaged (c : String) : PoolErr
  /-- `ReleaseCIDR`: "CIDR %s 未被分配". -/
  | cidrNotAllocated (c : String) : PoolErr
  deriving DecidableEq, Repr

/-- Decidable equality of operation results, used to evaluate the embedding
on concrete inputs. -/
instance {ε α : Type} [DecidableEq ε] [DecidableEq α] : DecidableEq (Except ε α) := fun x y =>
  match x, y with
  | .error a, .error b =>
    if h : a = b then .isTrue (by rw [h]) else .isFalse fun hc => by cases hc; exact h rfl
  | .ok a, .ok b =>
    if h : a = b then .isTrue (by rw [h]) else .isFalse fun hc => by cases hc; exact h rfl
  | .error _, .ok _ => .isFalse fun hc => by cases hc
  | .ok _, .error _ => .isFalse fun hc => by cases hc

/-- `MemoryIPStorage`: the in-memory store.  `available` is the key set of the
Go map `available map[string]bool` (values are always `true`); `allocated`
mirrors `allocated map[string]string`. -/
structure MemoryIPStorage where
  available : Finset ℕ
  allocated : AList (fun _ : ℕ => String)
  deriving DecidableEq

/-- The empty storage, `NewMemoryIPStorage`. -/
def MemoryIPStorage.empty : MemoryIPStorage := ⟨∅, ∅⟩

/-- Storage `AddIP`: fails on a cancelled context or an allocated address,
otherwise (idempotently) adds to `available`. -/
def MemoryIPStorage.AddIP (s : MemoryIPStorage) (ctx : Bool) (ip : ℕ) :
    Except PoolErr MemoryIPStorage :=
  if ctx then .error .cancelled
  else if ip ∈ s.allocated then .error (.alreadyAllocated (ipStr ip))
  else .ok { s with available := insert ip s.available }

/-- Storage `RemoveIP`. -/
def MemoryIPStorage.RemoveIP (s : MemoryIPStorage) (ctx : Bool) (ip : ℕ) :
    Except PoolErr MemoryIPStorage :=
  if ctx then .error .cancelled
  else if ip ∈ s.available then .ok { s with available := s.available.erase ip }
  else .error (.notInAvailable (ipStr ip))

/-- Storage `IsIPAvailable`. -/
def MemoryIPStorage.IsIPAvailable (s : MemoryIPStorage) (ctx : Bool) (ip : ℕ) :
    Except PoolErr Bool :=
  if ctx then .error .cancelled else .ok (ip ∈ s.available)

/-- Storage `GetAvailableIPs`: every available address, sorted by the
string form of the key (`sort.Strings`). -/
def MemoryIPStorage.GetAvailableIPs (s : MemoryIPStorage) (ctx : Bool) :
    Except PoolErr (List ℕ) :=
  if ctx then .error .cancelled
  else .ok (sortIPStrings (finsetAscList s.available))

/-- Storage `AllocateIP`: move an address from `available` to `allocated`,
recording the description. -/
def MemoryIPStorage.AllocateIP (s : MemoryIPStorage) (ctx : Bool) (ip : ℕ)
    (description : String) : Except PoolErr MemoryIPStorage :=
  if ctx then .error .cancelled
  else if ip ∈ s.available then
    .ok { available := s.available.erase ip,
          allocated := s.allocated.insert ip description }
  else .error (.notInAvailable (ipStr ip))

/-- Storage `DeallocateIP`: move an address from `allocated` back to
`available`. -/
def MemoryIPStorage.DeallocateIP (s : MemoryIPStorage) (ctx : Bool) (ip : ℕ) :
    Except PoolErr MemoryIPStorage :=
  if ctx then .error .cancelled
  else if ip ∈ s.allocated then
    .ok { available := insert ip s.available,
          allocated := s.allocated.erase ip }
  else .error (.notInAllocated (ipStr ip))

/-- Storage `GetAllocatedIPs`: a copy of the allocated map. -/
def MemoryIPStorage.GetAllocatedIPs (s : MemoryIPStorage) (ctx : Bool) :
    Except PoolErr (AList (fun _ : ℕ => String)) :=
  if ctx then .error .cancelled else .ok s.allocated

/-- Storage `AvailableCount` (`len(s.available)`). -/
def MemoryIPStorage.AvailableCount (s : MemoryIPStorage) (ctx : Bool) :
    Except PoolErr ℕ :=
  if ctx then .error .cancelled else .ok s.available.card

/-- Storage `AllocatedCount` (`len(s.allocated)`). -/
def MemoryIPStorage.AllocatedCount (s : MemoryIPStorage) (ctx : Bool) :
    Except PoolErr ℕ :=
  if ctx then .error .cancelled else .ok s.allocated.entries.length

/-- The engine: `CIDRGuardian` owns a storage and the registry of managed
CIDRs.  The registry key is the CIDR string exactly as given to `AddCIDR`,
represented by its parsed (base, prefixLength) pair; the value keeps the
registered description (`CIDRInfo`; its `IPNet` field is recomputed from the
key by `maskAddr` wherever used). -/
structure CIDRGuardian where
  storage : MemoryIPStorage
  managedCIDRs : AList (fun _ : ℕ × ℕ => String)
  deriving DecidableEq

/-- `AddCIDR`'s compensation: `RemoveIP` each previously added address,
swallowing errors. -/
def rollbackAdds (ctx : Bool) (s : MemoryIPStorage) : List ℕ → MemoryIPStorage
  | [] => s
  | a :: rest =>
    match s.RemoveIP ctx a with
    | .ok s' => rollbackAdds ctx s' rest
    | .error _ => rollbackAdds ctx s rest

/-- The per-address loop of `AddCIDR`: add each address, tolerating the
storage's "已被分配" (already allocated) error, compensating on any other
failure or on cancellation.  `added` accumulates the successfully added
addresses (most recent first). -/
def addCIDRLoop (ctx : Bool) (s : MemoryIPStorage) (added : List ℕ) :
    List ℕ → Option PoolErr × MemoryIPStorage
  | [] => (none, s)
  | a :: rest =>
    if ctx then (some .cancelled, rollbackAdds ctx s added)
    else
      match s.AddIP ctx a with
      | .ok s' => addCIDRLoop ctx s' (a :: added) rest
      | .error e =>
        match e with
        | .alreadyAllocated _ => addCIDRLoop ctx s added rest
        | _ => (some e, rollbackAdds ctx s added)

/-- `AddCIDR(cidr, description)` for the valid CIDR with parsed base `base`
and prefix length `p`. -/
def CIDRGuardian.AddCIDR (g : CIDRGuardian) (ctx : Bool) (base p : ℕ)
    (description : String) : Except PoolErr Unit × CIDRGuardian :=
  if ctx then (.error .cancelled, g)
  else if (base, p) ∈ g.managedCIDRs then
    (.error (.duplicateCIDR (cidrStr base p)), g)
  else
    match addCIDRLoop ctx g.storage [] (blockAddrs (maskAddr p base) (2 ^ (32 - p))) with
    | (some e, s') => (.error e, { g with storage := s' })
    | (none, s') =>
      (.ok (), { storage := s',
                 managedCIDRs := g.managedCIDRs.insert (base, p) description })

/-- The per-address walk of `removeCIDRWithoutLock`: cancellation is polled
first in each iteration; each still-available address is removed. -/
def removeCIDRLoop (ctx : Bool) (s : MemoryIPStorage) :
    List ℕ → Option PoolErr × MemoryIPStorage
  | [] => (none, s)
  | a :: rest =>
    if ctx then (some .cancelled, s)
    else
      match s.IsIPAvailable ctx a with
      | .error e => (some e, s)
      | .ok avail =>
        if avail then
          match s.RemoveIP ctx a with
          | .ok s' => removeCIDRLoop ctx s' rest
          | .error e => (some e, s)
        else removeCIDRLoop ctx s rest

/-- `RemoveCIDR(cidr)` (which is `removeCIDRWithoutLock` under the lock).
Note: unlike the other public operations it performs *no* cancellation check
before the registry lookup. -/
def CIDRGuardian.RemoveCIDR (g : CIDRGuardian) (ctx : Bool) (base p : ℕ) :
    Except PoolErr Unit × CIDRGuardian :=
  match g.managedCIDRs.lookup (base, p) with
  | none => (.error (.notManaged (cidrStr base p)), g)
  | some _ =>
    match removeCIDRLoop ctx g.storage (blockAddrs (maskAddr p base) (2 ^ (32 - p))) with
    | (some e, s') => (.error e, { g with storage := s' })
    | (none, s') =>
      (.ok (), { storage := s', managedCIDRs := g.managedCIDRs.erase (base, p) })

/-- The per-address loop of `ExpandPool`: re-reads the allocated map each
iteration and adds every address not currently allocated. -/
def expandPoolLoop (ctx : Bool) (s : MemoryIPStorage) :
    List ℕ → Option PoolErr × MemoryIPStorage
  | [] => (none, s)
  | a :: rest =>
    if ctx then (some .cancelled, s)
    else
      match s.GetAllocatedIPs ctx with
      | .error e => (some e, s)
      | .ok allocated =>
        if a ∈ allocated then expandPoolLoop ctx s rest
        else
          match s.AddIP ctx a with
          | .ok s' => expandPoolLoop ctx s' rest
          | .error e => (some e, s)

/-- `ExpandPool(cidr)`: walk the block adding the not-allocated addresses,
then register the block through `AddCIDR` (with the fixed description
"扩展的网段").  The loop's additions persist even when `AddCIDR` fails. -/
def CIDRGuardian.ExpandPool (g : CIDRGuardian) (ctx : Bool) (base p : ℕ) :
    Except PoolErr Unit × CIDRGuardian :=
  match expandPoolLoop ctx g.storage (blockAddrs (maskAddr p base) (2 ^ (32 - p))) with
  | (some e, s') => (.error e, { g with storage := s' })
  | (none, s') => CIDRGuardian.AddCIDR { g with storage := s' } ctx base p "扩展的网段"

/-- Engine `AllocateIP`: direct pass-through to the storage. -/
def CIDRGuardian.AllocateIP (g : CIDRGuardian) (ctx : Bool) (ip : ℕ)
    (description : String) : Except PoolErr Unit × CIDRGuardian :=
  match g.storage.AllocateIP ctx ip description with
  | .ok s' => (.ok (), { g with storage := s' })
  | .error e => (.error e, g)

/-- Engine `ReleaseIP`: direct pass-through to the storage. -/
def CIDRGuardian.ReleaseIP (g : CIDRGuardian) (ctx : Bool) (ip : ℕ) :
    Except PoolErr Unit × CIDRGuardian :=
  match g.storage.DeallocateIP ctx ip with
  | .ok s' => (.ok (), { g with storage := s' })
  | .error e => (.error e, g)

/-- `AllocateCIDR` step 10: re-check that every address of the chosen block is
available (no cancellation poll in this loop). -/
def allocCheckLoop (ctx : Bool) (s : MemoryIPStorage) : List ℕ → Option PoolErr
  | [] => none
  | a :: rest =>
    match s.IsIPAvailable ctx a with
    | .error e => some e
    | .ok avail =>
      if avail then allocCheckLoop ctx s rest
      else some (.ipUnavailable (ipStr a))

/-- `AllocateCIDR` step 12: remove every block address except the start; on a
failure, attempt to deallocate the start address (compensation, its error
swallowed) and report the original error. -/
def allocRemoveLoop (ctx : Bool) (startIP : ℕ) (s : MemoryIPStorage) :
    List ℕ → Option PoolErr × MemoryIPStorage
  | [] => (none, s)
  | a :: rest =>
    if a = startIP then allocRemoveLoop ctx startIP s rest
    else
      match s.RemoveIP ctx a with
      | .ok s' => allocRemoveLoop ctx startIP s' rest
      | .error e =>
        (some e,
          match s.DeallocateIP ctx startIP with
          | .ok s' => s'
          | .error _ => s)

/-- `AllocateCIDR(bits, description)`: find the string-lexicographically first
aligned available start, re-check the block, allocate the start address with
description `"<cidr> - <description>"`, and drain the rest of the block from
the available set.  `bits` is a natural; the Go validation additionally
rejects negative inputs, which `ℕ` excludes by type. -/
def CIDRGuardian.AllocateCIDR (g : CIDRGuardian) (ctx : Bool) (bits : ℕ)
    (description : String) : Except PoolErr String × CIDRGuardian :=
  if ctx then (.error .cancelled, g)
  else if 32 < bits then (.error (.invalidBits bits), g)
  else
    match g.storage.GetAvailableIPs ctx with
    | .error e => (.error e, g)
    | .ok availableIPs =>
      if availableIPs.length < 2 ^ (32 - bits) then (.error (.noCapacity bits), g)
      else
        let sorted := sortIPStrings availableIPs
        let candidateStartIPs := sorted.filter fun a => maskAddr bits a == a
        match sortIPStrings candidateStartIPs with
        | [] => (.error .noAligned, g)
        | startIP :: _ =>
          let cidr := cidrStr startIP bits
          let block := blockAddrs (maskAddr bits startIP) (2 ^ (32 - bits))
          match allocCheckLoop ctx g.storage block with
          | some e => (.error e, g)
          | none =>
            match g.storage.AllocateIP ctx startIP (cidr ++ " - " ++ description) with
            | .error e => (.error e, g)
            | .ok s1 =>
              match allocRemoveLoop ctx startIP s1 block with
              | (some e, s2) => (.error e, { g with storage := s2 })
              | (none, s2) => (.ok cidr, { g with storage := s2 })

/-- `cidrInfo.IPNet.Contains(ip)` for some registered CIDR: the managed-range
test of `ReleaseCIDR`. -/
def inManagedRange (managed : AList (fun _ : ℕ × ℕ => String)) (a : ℕ) : Bool :=
  managed.keys.any fun bp => maskAddr bp.2 a == maskAddr bp.2 bp.1

/-- The per-address loop of `ReleaseCIDR`: re-add each block address that lies
in some managed CIDR and is absent from the allocated snapshot, tolerating the
"已被分配" error from `AddIP`. -/
def releaseCIDRLoop (ctx : Bool) (managed : AList (fun _ : ℕ × ℕ => String))
    (allocated : AList (fun _ : ℕ => String)) (s : MemoryIPStorage) :
    List ℕ → Option PoolErr × MemoryIPStorage
  | [] => (none, s)
  | a :: rest =>
    if ctx then (some .cancelled, s)
    else if inManagedRange managed a then
      if a ∈ allocated then releaseCIDRLoop ctx managed allocated s rest
      else
        match s.AddIP ctx a with
        | .ok s' => releaseCIDRLoop ctx managed allocated s' rest
        | .error e =>
          match e with
          | .alreadyAllocated _ => releaseCIDRLoop ctx managed allocated s rest
          | _ => (some e, s)
    else releaseCIDRLoop ctx managed allocated s rest

/-- `ReleaseCIDR(cidr)` for the valid CIDR with parsed base `base` and prefix
length `p`: fail unless the block's network address is allocated, re-add the
managed in-block addresses, then deallocate the network address. -/
def CIDRGuardian.ReleaseCIDR (g : CIDRGuardian) (ctx : Bool) (base p : ℕ) :
    Except PoolErr Unit × CIDRGuardian :=
  if ctx then (.error .cancelled, g)
  else
    match g.storage.GetAllocatedIPs ctx with
    | .error e => (.error e, g)
    | .ok allocated =>
      if maskAddr p base ∈ allocated then
        match releaseCIDRLoop ctx g.managedCIDRs allocated g.storage
            (blockAddrs (maskAddr p base) (2 ^ (32 - p))) with
        | (some e, s') => (.error e, { g with storage := s' })
        | (none, s') =>
          match s'.DeallocateIP ctx (maskAddr p base) with
          | .error e => (.error e, { g with storage := s' })
          | .ok s'' => (.ok (), { g with storage := s'' })
      else (.error (.cidrNotAllocated (cidrStr base p)), g)

/-- Split a character list at the *first* occurrence of the three-character
separator `" - "`: `strings.SplitN(desc, " - ", 2)` guarded by
`strings.Contains(desc, " - ")` (`none` exactly when the separator is
absent). -/
def sepSplit : List Char → Option (List Char × List Char)
  | [] => none
  | c :: rest =>
    if (c :: rest).take 3 = [' ', '-', ' '] then some ([], rest.drop 2)
    else
      match sepSplit rest with
      | some (pre, post) => some (c :: pre, post)
      | none => none

/-- String form of `sepSplit`. -/
def splitDesc (desc : String) : Option (String × String) :=
  match sepSplit desc.data with
  | some (pre, post) => some (String.mk pre, String.mk post)
  | none => none

/-- The scan of `GetUsedCIDRs` over the allocated entries (the Go map's
iteration order is unspecified; the embedding iterates the entry list in
order). -/
def usedCIDRsLoop (ctx : Bool) (acc : AList (fun _ : String => String)) :
    List (Sigma fun _ : ℕ => String) →
      Except PoolErr (AList (fun _ : String => String))
  | [] => .ok acc
  | e :: rest =>
    if ctx then .error .cancelled
    else
      match splitDesc e.2 with
      | some (c, d) => usedCIDRsLoop ctx (acc.insert c d) rest
      | none => usedCIDRsLoop ctx acc rest

/-- `GetUsedCIDRs()`: recover block allocations from the description strings
of the allocated map. -/
def CIDRGuardian.GetUsedCIDRs (g : CIDRGuardian) (ctx : Bool) :
    Except PoolErr (AList (fun _ : String => String)) :=
  if ctx then .error .cancelled
  else
    match g.storage.GetAllocatedIPs ctx with
    | .error e => .error e
    | .ok allocated => usedCIDRsLoop ctx ∅ allocated.entries

/-- Engine `AvailableCount`. -/
def CIDRGuardian.AvailableCount (g : CIDRGuardian) (ctx : Bool) :
    Except PoolErr ℕ :=
  if ctx then .error .cancelled else g.storage.AvailableCount ctx

/-- Engine `AllocatedCount`. -/
def CIDRGuardian.AllocatedCount (g : CIDRGuardian) (ctx : Bool) :
    Except PoolErr ℕ :=
  if ctx then .error .cancelled else g.storage.AllocatedCount ctx

/-! ## Concrete states used to evaluate the embedding -/

/-- The address `192.168.0.0`. -/
def base24 : ℕ := 192 * 2 ^ 24 + 168 * 2 ^ 16

/-- The 256 addresses of `192.168.0.0/24` in ascending order. -/
def range24 : List ℕ := (List.range 256).map (base24 + ·)

/-- A pool managing exactly `"192.168.0.0/24"` with all 256 of its addresses
available and nothing allocated. -/
def pool192 : CIDRGuardian :=
  { storage :=
      { available := ⟨(range24 : Multiset ℕ),
          Multiset.coe_nodup.mpr
            (List.Nodup.map (fun x y h => by omega) (List.nodup_range 256))⟩,
        allocated := ∅ },
    managedCIDRs := AList.insert (base24, 24) "初始 CIDR" ∅ }

/-- The address `10.0.0.0`. -/
def addr10 : ℕ := 10 * 2 ^ 24

/-- A pool with exactly `10.0.0.0` available; empty registry, nothing
allocated. -/
def poolOne : CIDRGuardian := ⟨⟨{addr10}, ∅⟩, ∅⟩

/-- A pool with `10.0.0.0` and `10.0.0.1` available; empty registry. -/
def poolTwo : CIDRGuardian := ⟨⟨{addr10, addr10 + 1}, ∅⟩, ∅⟩

/-- A pool with `10.0.0.0`–`10.0.0.3` available and `10.0.0.0/30`
registered. -/
def poolQuad : CIDRGuardian :=
  ⟨⟨{addr10, addr10 + 1, addr10 + 2, addr10 + 3}, ∅⟩,
    AList.insert (addr10, 30) "初始 CIDR" ∅⟩

/-- A pool with four available addresses, none of which is a multiple of
four (no aligned `/30` start). -/
def poolSkew : CIDRGuardian :=
  ⟨⟨{addr10 + 1, addr10 + 2, addr10 + 3, addr10 + 5}, ∅⟩, ∅⟩

/-- The empty pool. -/
def poolNil : CIDRGuardian := ⟨MemoryIPStorage.empty, ∅⟩

/-- A pool that registers `10.0.0.0/31` while neither of the block's two
addresses is available. -/
def poolReg31 : CIDRGuardian :=
  ⟨⟨∅, ∅⟩, AList.insert (addr10, 31) "初始 CIDR" ∅⟩

/-- A pool with two allocated descriptions, one carrying the `" - "`
separator and one not. -/
def poolC9 : CIDRGuardian :=
  ⟨⟨∅, AList.insert (addr10 + 4) "plain"
      (AList.insert addr10 "10.0.0.0/30 - web" ∅)⟩, ∅⟩

/-! ## Supporting lemmas: sorting and enumeration -/

theorem mem_insertBy (le : α → α → Bool) (a b : α) (l : List α) :
    b ∈ insertBy le a l ↔ b = a ∨ b ∈ l := by
  induction l with
  | nil => simp [insertBy]
  | cons c l ih =>
    by_cases h : le a c = true
    · simp [insertBy, h]
    · simp [insertBy, h, ih]
      tauto

theorem length_insertBy (le : α → α → Bool) (a : α) (l : List α) :
    (insertBy le a l).length = l.length + 1 := by
  induction l with
  | nil => rfl
  | cons c l ih =>
    by_cases h : le a c = true <;> simp [insertBy, h, ih]

theorem mem_sortBy (le : α → α → Bool) (b : α) (l : List α) :
    b ∈ sortBy le l ↔ b ∈ l := by
  induction l with
  | nil => simp [sortBy]
  | cons c l ih => simp [sortBy, mem_insertBy, ih]

theorem length_sortBy (le : α → α → Bool) (l : List α) :
    (sortBy le l).length = l.length := by
  induction l with
  | nil => rfl
  | cons c l ih => simp [sortBy, length_insertBy, ih]

theorem mem_sortIPStrings (b : ℕ) (l : List ℕ) :
    b ∈ sortIPStrings l ↔ b ∈ l := by
  unfold sortIPStrings
  constructor
  · intro h
    obtain ⟨x, hx, hxb⟩ := List.mem_map.mp h
    have := (mem_sortBy _ _ _).mp hx
    obtain ⟨y, hy, hyx⟩ := List.mem_map.mp this
    subst hyx; subst hxb; exact hy
  · intro h
    exact List.mem_map.mpr ⟨(strKey b, b),
      (mem_sortBy _ _ _).mpr (List.mem_map.mpr ⟨b, h, rfl⟩), rfl⟩

theorem length_sortIPStrings (l : List ℕ) :
    (sortIPStrings l).length = l.length := by
  unfold sortIPStrings
  rw [List.length_map, length_sortBy, List.length_map]

theorem mem_finsetAscList (a : ℕ) (s : Finset ℕ) :
    a ∈ finsetAscList s ↔ a ∈ s := by
  obtain ⟨m, hm⟩ := s
  induction m using Quotient.inductionOn with
  | h l =>
    show a ∈ l.insertionSort (· ≤ ·) ↔ _
    rw [List.mem_insertionSort]
    simp [Finset.mem_mk]

theorem length_finsetAscList (s : Finset ℕ) :
    (finsetAscList s).length = s.card := by
  obtain ⟨m, hm⟩ := s
  induction m using Quotient.inductionOn with
  | h l =>
    show (l.insertionSort (· ≤ ·)).length = _
    rw [List.length_insertionSort]
    rfl

theorem blockAddrs_length (net size : ℕ) : (blockAddrs net size).length = size := by
  simp [blockAddrs]

theorem mem_blockAddrs (a net size : ℕ) :
    a ∈ blockAddrs net size ↔ net ≤ a ∧ a < net + size := by
  simp only [blockAddrs, List.mem_map, List.mem_range]
  constructor
  · rintro ⟨i, hi, rfl⟩; omega
  · intro ⟨h₁, h₂⟩; exact ⟨a - net, by omega, by omega⟩

theorem blockAddrs_nodup (net size : ℕ) : (blockAddrs net size).Nodup :=
  List.Nodup.map (fun _ _ h => by omega) (List.nodup_range size)

/-! ## Supporting lemmas: the packed sort key realises lexicographic order -/

theorem foldl_pack_shift : ∀ (l : List ℕ) (n : ℕ),
    l.foldl (fun x c => x * 256 + c) n =
      n * 256 ^ l.length + l.foldl (fun x c => x * 256 + c) 0
  | [], n => by simp
  | a :: l, n => by
    simp only [List.foldl_cons, List.length_cons, Nat.zero_mul, Nat.zero_add]
    rw [foldl_pack_shift l (n * 256 + a), foldl_pack_shift l a]
    ring

theorem foldl_pack_lt (l : List ℕ) (hb : ∀ x ∈ l, x < 256) :
    l.foldl (fun x c => x * 256 + c) 0 < 256 ^ l.length := by
  induction l with
  | nil => simp
  | cons a l ih =>
    simp only [List.foldl_cons, List.length_cons, Nat.zero_mul, Nat.zero_add]
    rw [foldl_pack_shift l a]
    have h1 := ih fun x hx => hb x (List.mem_cons_of_mem a hx)
    have h2 : a < 256 := hb a (List.mem_cons_self a l)
    calc a * 256 ^ l.length + l.foldl (fun x c => x * 256 + c) 0
        < a * 256 ^ l.length + 256 ^ l.length := by omega
      _ = (a + 1) * 256 ^ l.length := by ring
      _ ≤ 256 * 256 ^ l.length := Nat.mul_le_mul_right _ (by omega)
      _ = 256 ^ (l.length + 1) := by ring

theorem packKey_cons (w a : ℕ) (l : List ℕ) (hw : l.length + 1 ≤ w) :
    packKey w (a :: l) = a * 256 ^ (w - 1) + packKey (w - 1) l := by
  unfold packKey
  simp only [List.foldl_cons, List.length_cons, Nat.zero_mul, Nat.zero_add]
  rw [foldl_pack_shift l a]
  have h1 : w - (l.length + 1) = w - 1 - l.length := by omega
  have h2 : l.length + (w - 1 - l.length) = w - 1 := by omega
  rw [h1, Nat.add_mul, Nat.mul_assoc, ← pow_add, h2]

theorem packKey_lt (w : ℕ) (l : List ℕ) (hw : l.length ≤ w)
    (hb : ∀ x ∈ l, x < 256) : packKey w l < 256 ^ w := by
  unfold packKey
  calc l.foldl (fun x c => x * 256 + c) 0 * 256 ^ (w - l.length)
      < 256 ^ l.length * 256 ^ (w - l.length) :=
        mul_lt_mul_of_pos_right (foldl_pack_lt l hb) (pow_pos (by norm_num) _)
    _ = 256 ^ w := by rw [← pow_add]; congr 1; omega

theorem packKey_pos (w a : ℕ) (l : List ℕ) (ha : 0 < a) :
    0 < packKey w (a :: l) := by
  unfold packKey
  apply Nat.mul_pos _ (pow_pos (by norm_num) _)
  simp only [List.foldl_cons, Nat.zero_mul, Nat.zero_add]
  rw [foldl_pack_shift l a]
  have : 0 < a * 256 ^ l.length := Nat.mul_pos ha (pow_pos (by norm_num) _)
  omega

theorem packKey_le_iff : ∀ (l₁ l₂ : List ℕ) (w : ℕ), l₁.length ≤ w → l₂.length ≤ w →
    (∀ x ∈ l₁, 0 < x ∧ x < 256) → (∀ x ∈ l₂, 0 < x ∧ x < 256) →
    (packKey w l₁ ≤ packKey w l₂ ↔ natListLe l₁ l₂ = true)
  | [], l₂, w, _, _, _, _ => by simp [packKey, natListLe]
  | a :: as, [], w, hw1, _, hb1, _ => by
    have hpos : 0 < packKey w (a :: as) :=
      packKey_pos w a as (hb1 a (List.mem_cons_self a as)).1
    have hz : packKey w [] = 0 := by simp [packKey]
    simp [natListLe, hz]
    omega
  | a :: as, b :: bs, w, hw1, hw2, hb1, hb2 => by
    have hw1' : as.length + 1 ≤ w := by simpa using hw1
    have hw2' : bs.length + 1 ≤ w := by simpa using hw2
    rw [packKey_cons w a as hw1', packKey_cons w b bs hw2']
    have hX : packKey (w - 1) as < 256 ^ (w - 1) :=
      packKey_lt _ _ (by omega) fun x hx => (hb1 x (List.mem_cons_of_mem a hx)).2
    have hY : packKey (w - 1) bs < 256 ^ (w - 1) :=
      packKey_lt _ _ (by omega) fun x hx => (hb2 x (List.mem_cons_of_mem b hx)).2
    rcases Nat.lt_trichotomy a b with hab | hab | hab
    · have hle : a * 256 ^ (w - 1) + packKey (w - 1) as ≤
          b * 256 ^ (w - 1) + packKey (w - 1) bs :=
        calc a * 256 ^ (w - 1) + packKey (w - 1) as
            ≤ a * 256 ^ (w - 1) + 256 ^ (w - 1) := by omega
          _ = (a + 1) * 256 ^ (w - 1) := by ring
          _ ≤ b * 256 ^ (w - 1) := Nat.mul_le_mul_right _ (by omega)
          _ ≤ b * 256 ^ (w - 1) + packKey (w - 1) bs := Nat.le_add_right _ _
      simp [natListLe, hab, hle]
    · subst hab
      simp only [natListLe, lt_irrefl, if_false]
      rw [Nat.add_le_add_iff_left]
      exact packKey_le_iff as bs (w - 1) (by omega) (by omega)
        (fun x hx => hb1 x (List.mem_cons_of_mem a hx))
        (fun x hx => hb2 x (List.mem_cons_of_mem a hx))
    · have hlt : b * 256 ^ (w - 1) + packKey (w - 1) bs <
          a * 256 ^ (w - 1) + packKey (w - 1) as :=
        calc b * 256 ^ (w - 1) + packKey (w - 1) bs
            < b * 256 ^ (w - 1) + 256 ^ (w - 1) := by omega
          _ = (b + 1) * 256 ^ (w - 1) := by ring
          _ ≤ a * 256 ^ (w - 1) := Nat.mul_le_mul_right _ (by omega)
          _ ≤ a * 256 ^ (w - 1) + packKey (w - 1) as := Nat.le_add_right _ _
      have h1 : ¬a < b := by omega
      simp [natListLe, h1, hab]
      omega

theorem octDigits_bounds (n : ℕ) (hn : n < 256) :
    ∀ x ∈ octDigits n, 0 < x ∧ x < 256 := by
  intro x hx
  unfold octDigits at hx
  by_cases h1 : n < 10
  · simp [h1] at hx; omega
  · by_cases h2 : n < 100
    · simp [h1, h2] at hx
      rcases hx with rfl | rfl <;> omega
    · simp [h1, h2] at hx
      rcases hx with rfl | rfl | rfl <;> omega

theorem octDigits_length_le (n : ℕ) : (octDigits n).length ≤ 3 := by
  unfold octDigits
  split_ifs <;> simp

theorem ipBytes_bounds (a : ℕ) : ∀ x ∈ ipBytes a, 0 < x ∧ x < 256 := by
  intro x hx
  unfold ipBytes at hx
  simp only [List.mem_append, List.mem_cons] at hx
  have m1 : a / 2 ^ 24 % 256 < 256 := Nat.mod_lt _ (by norm_num)
  have m2 : a / 2 ^ 16 % 256 < 256 := Nat.mod_lt _ (by norm_num)
  have m3 : a / 2 ^ 8 % 256 < 256 := Nat.mod_lt _ (by norm_num)
  have m4 : a % 256 < 256 := Nat.mod_lt _ (by norm_num)
  rcases hx with h | rfl | h | rfl | h | rfl | h
  · exact octDigits_bounds _ m1 x h
  · omega
  · exact octDigits_bounds _ m2 x h
  · omega
  · exact octDigits_bounds _ m3 x h
  · omega
  · exact octDigits_bounds _ m4 x h

theorem ipBytes_length_le (a : ℕ) : (ipBytes a).length ≤ 15 := by
  unfold ipBytes
  have h1 := octDigits_length_le (a / 2 ^ 24 % 256)
  have h2 := octDigits_length_le (a / 2 ^ 16 % 256)
  have h3 := octDigits_length_le (a / 2 ^ 8 % 256)
  have h4 := octDigits_length_le (a % 256)
  simp only [List.length_append, List.length_cons]
  omega

/-- The comparator of `sortIPStrings` agrees with byte-wise lexicographic
comparison of the rendered dotted-quad strings: sorting by packed keys is
sorting in the order of Go's `sort.Strings`. -/
theorem strKey_le_iff_natListLe (a b : ℕ) :
    strKey a ≤ strKey b ↔ natListLe (ipBytes a) (ipBytes b) = true :=
  packKey_le_iff (ipBytes a) (ipBytes b) 15 (ipBytes_length_le a)
    (ipBytes_length_le b) (ipBytes_bounds a) (ipBytes_bounds b)


theorem removeCIDRLoop_false (l : List ℕ) : ∀ s : MemoryIPStorage,
    removeCIDRLoop false s l =
      (none, { s with available := s.available \ l.toFinset }) := by
  induction l with
  | nil => intro s; simp [removeCIDRLoop]
  | cons a rest ih =>
    intro s
    by_cases h : a ∈ s.available
    · simp [removeCIDRLoop, MemoryIPStorage.IsIPAvailable,
        MemoryIPStorage.RemoveIP, h, ih]
      ext x
      simp only [Finset.mem_sdiff, Finset.mem_erase, List.toFinset_cons,
        Finset.mem_insert, List.mem_toFinset]
      tauto
    · simp [removeCIDRLoop, MemoryIPStorage.IsIPAvailable, h, ih]
      ext x
      simp only [Finset.mem_sdiff, List.toFinset_cons, Finset.mem_insert,
        List.mem_toFinset]
      constructor
      · rintro ⟨hx, hnx⟩
        exact ⟨hx, fun hc => hc.elim (fun he => h (he ▸ hx)) hnx⟩
      · rintro ⟨hx, hnx⟩
        exact ⟨hx, fun hc => hnx (Or.inr hc)⟩

theorem addCIDRLoop_false (l : List ℕ) : ∀ (s : MemoryIPStorage) (added : List ℕ),
    addCIDRLoop false s added l =
      (none, { s with available :=
        s.available ∪ l.toFinset.filter (fun a => a ∉ s.allocated) }) := by
  induction l with
  | nil => intro s added; simp [addCIDRLoop]
  | cons a rest ih =>
    intro s added
    by_cases h : a ∈ s.allocated
    · simp [addCIDRLoop, MemoryIPStorage.AddIP, h, ih]
      rw [Finset.filter_insert, if_neg (by simpa using h)]
    · simp [addCIDRLoop, MemoryIPStorage.AddIP, h, ih]
      rw [Finset.filter_insert, if_pos (by simpa using h)]
      ext x
      simp only [Finset.mem_union, Finset.mem_insert, Finset.mem_filter]
      tauto

theorem expandPoolLoop_false (l : List ℕ) : ∀ s : MemoryIPStorage,
    expandPoolLoop false s l =
      (none, { s with available :=
        s.available ∪ l.toFinset.filter (fun a => a ∉ s.allocated) }) := by
  induction l with
  | nil => intro s; simp [expandPoolLoop]
  | cons a rest ih =>
    intro s
    by_cases h : a ∈ s.allocated
    · simp [expandPoolLoop, MemoryIPStorage.GetAllocatedIPs, h, ih]
      rw [Finset.filter_insert, if_neg (by simpa using h)]
    · simp [expandPoolLoop, MemoryIPStorage.GetAllocatedIPs,
        MemoryIPStorage.AddIP, h, ih]
      rw [Finset.filter_insert, if_pos (by simpa using h)]
      ext x
      simp only [Finset.mem_union, Finset.mem_insert, Finset.mem_filter]
      tauto

theorem allocCheckLoop_false_of_avail (l : List ℕ) (s : MemoryIPStorage)
    (h : ∀ a ∈ l, a ∈ s.available) : allocCheckLoop false s l = none := by
  induction l with
  | nil => rfl
  | cons a rest ih =>
    simp [allocCheckLoop, MemoryIPStorage.IsIPAvailable,
      h a (List.mem_cons_self a rest)]
    exact ih fun b hb => h b (List.mem_cons_of_mem a hb)

theorem allocCheckLoop_false_avail (l : List ℕ) (s : MemoryIPStorage)
    (h : allocCheckLoop false s l = none) : ∀ a ∈ l, a ∈ s.available := by
  induction l with
  | nil => simp
  | cons a rest ih =>
    intro b hb
    by_cases ha : a ∈ s.available
    · simp [allocCheckLoop, MemoryIPStorage.IsIPAvailable, ha] at h
      rcases List.mem_cons.mp hb with rfl | hb'
      · exact ha
      · exact ih h b hb'
    · simp [allocCheckLoop, MemoryIPStorage.IsIPAvailable, ha] at h

theorem allocRemoveLoop_false (l : List ℕ) : ∀ s : MemoryIPStorage, ∀ startIP : ℕ,
    l.Nodup → (∀ a ∈ l, a ≠ startIP → a ∈ s.available) →
    allocRemoveLoop false startIP s l =
      (none, { s with available := s.available \ (l.toFinset.erase startIP) }) := by
  induction l with
  | nil => intro s startIP _ _; simp [allocRemoveLoop]
  | cons a rest ih =>
    intro s startIP hnd hin
    by_cases ha : a = startIP
    · subst ha
      rw [allocRemoveLoop, if_pos rfl,
        ih s a (List.Nodup.of_cons hnd)
          (fun b hb hbne => hin b (List.mem_cons_of_mem a hb) hbne)]
      congr 2
      ext x
      simp only [Finset.mem_sdiff, Finset.mem_erase, List.toFinset_cons,
        Finset.mem_insert, List.mem_toFinset]
      tauto
    · have hmem : a ∈ s.available := hin a (List.mem_cons_self a rest) ha
      rw [allocRemoveLoop, if_neg ha]
      simp only [MemoryIPStorage.RemoveIP, if_neg Bool.false_ne_true, if_pos hmem]
      have hrest : ∀ b ∈ rest, b ≠ startIP →
          b ∈ ({ s with available := s.available.erase a } : MemoryIPStorage).available := by
        intro b hb hbne
        have hba : b ≠ a := fun hc => (List.nodup_cons.mp hnd).1 (hc ▸ hb)
        exact Finset.mem_erase.mpr ⟨hba, hin b (List.mem_cons_of_mem a hb) hbne⟩
      rw [ih _ startIP (List.Nodup.of_cons hnd) hrest]
      congr 2
      ext x
      simp only [Finset.mem_sdiff, Finset.mem_erase, List.toFinset_cons,
        Finset.mem_insert, List.mem_toFinset]
      constructor
      · rintro ⟨⟨hxa, hx⟩, hnx⟩
        exact ⟨hx, fun hc => hnx ⟨hc.1, hc.2.elim (fun he => absurd he hxa) id⟩⟩
      · rintro ⟨hx, hnx⟩
        refine ⟨⟨fun hc => ?_, hx⟩, fun hc => hnx ⟨hc.1, Or.inr hc.2⟩⟩
        subst hc
        exact hnx ⟨ha, Or.inl rfl⟩

theorem releaseCIDRLoop_false (l : List ℕ) :
    ∀ (managed : AList (fun _ : ℕ × ℕ => String)) (s : MemoryIPStorage),
    releaseCIDRLoop false managed s.allocated s l =
      (none, { s with available := s.available ∪
        (l.toFinset.filter fun a =>
          inManagedRange managed a = true ∧ a ∉ s.allocated) }) := by
  induction l with
  | nil => intro managed s; simp [releaseCIDRLoop]
  | cons a rest ih =>
    intro managed s
    by_cases hm : inManagedRange managed a = true
    · by_cases hal : a ∈ s.allocated
      · simp [releaseCIDRLoop, hm, hal, ih]
        rw [Finset.filter_insert,
          if_neg (by simp [hal])]
      · simp [releaseCIDRLoop, hm, hal, MemoryIPStorage.AddIP,
          ih managed { s with available := insert a s.available }]
        rw [Finset.filter_insert, if_pos (by simp [hm, hal])]
        ext x
        simp only [Finset.mem_union, Finset.mem_insert, Finset.mem_filter]
        tauto
    · simp [releaseCIDRLoop, hm, ih]
      rw [Finset.filter_insert, if_neg (by simp [hm])]

set_option maxHeartbeats 1000000

theorem AllocateCIDR_ok (g : CIDRGuardian) (bits : ℕ) (d c : String)
    (g' : CIDRGuardian) (h : g.AllocateCIDR false bits d = (.ok c, g')) :
    ∃ startIP,
      maskAddr bits startIP = startIP ∧
      startIP ∈ g.storage.available ∧
      c = cidrStr startIP bits ∧
      (∀ a ∈ blockAddrs startIP (2 ^ (32 - bits)), a ∈ g.storage.available) ∧
      g' = ⟨⟨g.storage.available \ (blockAddrs startIP (2 ^ (32 - bits))).toFinset,
            g.storage.allocated.insert startIP (cidrStr startIP bits ++ " - " ++ d)⟩,
           g.managedCIDRs⟩ := by
  unfold CIDRGuardian.AllocateCIDR at h
  simp only [Bool.false_eq_true, if_false, MemoryIPStorage.GetAvailableIPs] at h
  split at h
  next => exact absurd h (by simp)
  next =>
    split at h
    next => exact absurd h (by simp)
    next =>
      split at h
      next => exact absurd h (by simp)
      next startIP tail hcand =>
        split at h
        next => exact absurd h (by simp)
        next hchk =>
          have hstart : startIP ∈ sortIPStrings
              (List.filter (fun a => maskAddr bits a == a)
                (sortIPStrings (sortIPStrings (finsetAscList g.storage.available)))) := by
            rw [hcand]; exact List.mem_cons_self _ _
          rw [mem_sortIPStrings] at hstart
          have hfil := List.mem_filter.mp hstart
          have halign : maskAddr bits startIP = startIP := by
            have := hfil.2; simpa using this
          have hmem : startIP ∈ g.storage.available := by
            have := hfil.1
            rw [mem_sortIPStrings, mem_sortIPStrings, mem_finsetAscList] at this
            exact this
          rw [halign] at hchk h
          have hblock : ∀ a ∈ blockAddrs startIP (2 ^ (32 - bits)),
              a ∈ g.storage.available :=
            allocCheckLoop_false_avail _ _ hchk
          have hallocip : g.storage.AllocateIP false startIP
              (cidrStr startIP bits ++ " - " ++ d) =
              .ok ⟨g.storage.available.erase startIP,
                   g.storage.allocated.insert startIP
                     (cidrStr startIP bits ++ " - " ++ d)⟩ := by
            simp [MemoryIPStorage.AllocateIP, hmem]
          rw [hallocip] at h
          have hrem := allocRemoveLoop_false
            (blockAddrs startIP (2 ^ (32 - bits)))
            ⟨g.storage.available.erase startIP,
             g.storage.allocated.insert startIP
               (cidrStr startIP bits ++ " - " ++ d)⟩
            startIP (blockAddrs_nodup _ _)
            (fun a ha hne => Finset.mem_erase.mpr ⟨hne, hblock a ha⟩)
          simp only [hrem, Prod.mk.injEq, Except.ok.injEq] at h
          obtain ⟨hc, hg⟩ := h
          refine ⟨startIP, halign, hmem, hc.symm, hblock, ?_⟩
          rw [← hg]
          congr 1
          have hin : startIP ∈ blockAddrs startIP (2 ^ (32 - bits)) := by
            rw [mem_blockAddrs]
            have : 0 < 2 ^ (32 - bits) := pow_pos (by norm_num) _
            omega
          congr 1
          ext x
          simp only [Finset.mem_sdiff, Finset.mem_erase, List.mem_toFinset]
          constructor
          · rintro ⟨⟨hxs, hx⟩, hnx⟩
            exact ⟨hx, fun hc2 => hnx ⟨hxs, hc2⟩⟩
          · rintro ⟨hx, hnx⟩
            have hxs : x ≠ startIP := fun hc2 => hnx (hc2 ▸ hin)
            exact ⟨⟨hxs, hx⟩, fun hc2 => hnx hc2.2⟩

theorem alist_erase_insert (a : ℕ) (b : String)
    (s : AList (fun _ : ℕ => String)) (h : a ∉ s) :
    (s.insert a b).erase a = s := by
  apply AList.ext
  show List.kerase a (s.insert a b).entries = s.entries
  rw [AList.insert_entries_of_neg h]
  exact List.kerase_cons_eq rfl

theorem ReleaseCIDR_ok (g : CIDRGuardian) (net p : ℕ)
    (hal : net ∈ g.storage.allocated)
    (hnet : maskAddr p net = net) :
    g.ReleaseCIDR false net p =
      (.ok (), ⟨⟨insert net (g.storage.available ∪
          ((blockAddrs net (2 ^ (32 - p))).toFinset.filter fun a =>
            inManagedRange g.managedCIDRs a = true ∧ a ∉ g.storage.allocated)),
        g.storage.allocated.erase net⟩, g.managedCIDRs⟩) := by
  unfold CIDRGuardian.ReleaseCIDR
  simp only [Bool.false_eq_true, if_false, MemoryIPStorage.GetAllocatedIPs, hnet]
  rw [if_pos hal, releaseCIDRLoop_false]
  simp only [MemoryIPStorage.DeallocateIP, Bool.false_eq_true, if_false,
    if_pos hal]

/-- C3 (amended): whenever `AllocateCIDR(p, d)` succeeds with result `c`, and
every available address lies inside some registered managed CIDR (so in
particular the allocated block does) and the available and allocated sets are
disjoint, then releasing the parsed form of `c` succeeds and restores both
`AvailableCount` and `AllocatedCount` to their pre-allocation values.  The
hypothesis `1 ≤ p` excludes `/0`, whose release walk does not terminate in
the source. -/
theorem allocate_release_roundtrip (g : CIDRGuardian) (p : ℕ) (d c : String)
    (g1 : CIDRGuardian) (hp : 1 ≤ p)
    (hdisj : ∀ a, a ∈ g.storage.available → a ∉ g.storage.allocated)
    (hcov : ∀ a, a ∈ g.storage.available →
      inManagedRange g.managedCIDRs a = true)
    (hrun : g.AllocateCIDR false p d = (.ok c, g1)) :
    ∃ startIP, c = cidrStr startIP p ∧
      (g1.ReleaseCIDR false startIP p).1 = .ok () ∧
      (g1.ReleaseCIDR false startIP p).2.AvailableCount false =
        g.AvailableCount false ∧
      (g1.ReleaseCIDR false startIP p).2.AllocatedCount false =
        g.AllocatedCount false := by
  obtain ⟨startIP, halign, hmem, hc, hblock, hg1⟩ :=
    AllocateCIDR_ok g p d c g1 hrun
  subst hg1
  have hstartnal : startIP ∉ g.storage.allocated := hdisj startIP hmem
  have hal : startIP ∈
      (AList.insert startIP (cidrStr startIP p ++ " - " ++ d)
        g.storage.allocated) :=
    (AList.mem_insert _).mpr (Or.inl rfl)
  have hrel := ReleaseCIDR_ok
    ⟨⟨g.storage.available \ (blockAddrs startIP (2 ^ (32 - p))).toFinset,
      g.storage.allocated.insert startIP (cidrStr startIP p ++ " - " ++ d)⟩,
     g.managedCIDRs⟩ startIP p hal halign
  refine ⟨startIP, hc, by rw [hrel], ?_, ?_⟩
  · rw [hrel]
    have havail : insert startIP
        ((g.storage.available \ (blockAddrs startIP (2 ^ (32 - p))).toFinset) ∪
          ((blockAddrs startIP (2 ^ (32 - p))).toFinset.filter fun a =>
            inManagedRange g.managedCIDRs a = true ∧
            a ∉ AList.insert startIP (cidrStr startIP p ++ " - " ++ d)
              g.storage.allocated)) = g.storage.available := by
      ext x
      simp only [Finset.mem_insert, Finset.mem_union, Finset.mem_sdiff,
        Finset.mem_filter, List.mem_toFinset, AList.mem_insert]
      constructor
      · rintro (rfl | ⟨hx, _⟩ | ⟨hxb, _, _⟩)
        · exact hmem
        · exact hx
        · exact hblock x hxb
      · intro hx
        by_cases hxb : x ∈ blockAddrs startIP (2 ^ (32 - p))
        · by_cases hxs : x = startIP
          · exact Or.inl hxs
          · refine Or.inr (Or.inr ⟨hxb, hcov x hx, ?_⟩)
            push_neg
            exact ⟨hxs, hdisj x hx⟩
        · exact Or.inr (Or.inl ⟨hx, hxb⟩)
    simp only [CIDRGuardian.AvailableCount, MemoryIPStorage.AvailableCount,
      Bool.false_eq_true, if_false, havail]
  · rw [hrel]
    have hallocated : (AList.insert startIP
        (cidrStr startIP p ++ " - " ++ d) g.storage.allocated).erase startIP =
        g.storage.allocated := alist_erase_insert _ _ _ hstartnal
    simp only [CIDRGuardian.AllocatedCount, MemoryIPStorage.AllocatedCount,
      Bool.false_eq_true, if_false, hallocated]

/-- C2: for every prefix length `p ≤ 32` and every pool state,
`AllocateCIDR(p, d)` fails with `NoCapacity` whenever the number of available
addresses is strictly below `2^(32-p)`, and fails with `NoAlignedBlock`
whenever the capacity check passes but no available address `A` satisfies
`A = A & mask(p)`; in both failure cases the state is returned unchanged. -/
theorem allocateCIDR_failure_modes (g : CIDRGuardian) (p : ℕ) (d : String)
    (hp : p ≤ 32) :
    (g.storage.available.card < 2 ^ (32 - p) →
      g.AllocateCIDR false p d = (.error (.noCapacity p), g)) ∧
    (2 ^ (32 - p) ≤ g.storage.available.card →
      (∀ a ∈ g.storage.available, maskAddr p a ≠ a) →
      g.AllocateCIDR false p d = (.error .noAligned, g)) := by
  have hlen : (sortIPStrings (finsetAscList g.storage.available)).length =
      g.storage.available.card := by
    rw [length_sortIPStrings, length_finsetAscList]
  constructor
  · intro hcap
    unfold CIDRGuardian.AllocateCIDR
    simp only [Bool.false_eq_true, if_false, MemoryIPStorage.GetAvailableIPs]
    rw [if_neg (by omega : ¬32 < p), if_pos (by rw [hlen]; exact hcap)]
  · intro hcap hnone
    unfold CIDRGuardian.AllocateCIDR
    simp only [Bool.false_eq_true, if_false, MemoryIPStorage.GetAvailableIPs]
    rw [if_neg (by omega : ¬32 < p),
      if_neg (by rw [hlen]; omega : ¬(sortIPStrings (finsetAscList g.storage.available)).length < 2 ^ (32 - p))]
    have hfil : List.filter (fun a => maskAddr p a == a)
        (sortIPStrings (sortIPStrings (finsetAscList g.storage.available))) = [] := by
      rw [List.filter_eq_nil_iff]
      intro a ha
      rw [mem_sortIPStrings, mem_sortIPStrings, mem_finsetAscList] at ha
      simpa using hnone a ha
    rw [hfil]
    rfl

/-- C4 (amended): for a valid CIDR (`1 ≤ p ≤ 32`; `/0` does not terminate in
the source) that is not yet registered and **none of whose addresses is
already available**, `AddCIDR` succeeds and an immediate `RemoveCIDR`
succeeds and restores the available set (hence `AvailableCount`) exactly. -/
theorem addCIDR_removeCIDR_roundtrip (g : CIDRGuardian) (base p : ℕ)
    (d : String) (hp : 1 ≤ p) (hp2 : p ≤ 32)
    (hnew : (base, p) ∉ g.managedCIDRs)
    (hfresh : ∀ a ∈ blockAddrs (maskAddr p base) (2 ^ (32 - p)),
      a ∉ g.storage.available) :
    (g.AddCIDR false base p d).1 = .ok () ∧
    ((g.AddCIDR false base p d).2.RemoveCIDR false base p).1 = .ok () ∧
    ((g.AddCIDR false base p d).2.RemoveCIDR false base p).2.storage.available =
      g.storage.available := by
  have hadd : g.AddCIDR false base p d =
      (.ok (), ⟨⟨g.storage.available ∪
          ((blockAddrs (maskAddr p base) (2 ^ (32 - p))).toFinset.filter fun a =>
            a ∉ g.storage.allocated),
        g.storage.allocated⟩,
        g.managedCIDRs.insert (base, p) d⟩) := by
    unfold CIDRGuardian.AddCIDR
    rw [if_neg (by simp), if_neg hnew, addCIDRLoop_false]
  rw [hadd]
  have hlook : (g.managedCIDRs.insert (base, p) d).lookup (base, p) = some d :=
    AList.lookup_insert _
  have hrem : (⟨⟨g.storage.available ∪
        ((blockAddrs (maskAddr p base) (2 ^ (32 - p))).toFinset.filter fun a =>
          a ∉ g.storage.allocated),
      g.storage.allocated⟩,
      g.managedCIDRs.insert (base, p) d⟩ : CIDRGuardian).RemoveCIDR
        false base p =
      (.ok (), ⟨⟨(g.storage.available ∪
          ((blockAddrs (maskAddr p base) (2 ^ (32 - p))).toFinset.filter fun a =>
            a ∉ g.storage.allocated)) \
          (blockAddrs (maskAddr p base) (2 ^ (32 - p))).toFinset,
        g.storage.allocated⟩,
        (g.managedCIDRs.insert (base, p) d).erase (base, p)⟩) := by
    unfold CIDRGuardian.RemoveCIDR
    rw [hlook]
    rw [removeCIDRLoop_false]
  rw [hrem]
  refine ⟨rfl, rfl, ?_⟩
  ext x
  simp only [Finset.mem_sdiff, Finset.mem_union, Finset.mem_filter,
    List.mem_toFinset]
  constructor
  · rintro ⟨hx | ⟨hxb, _⟩, hnb⟩
    · exact hx
    · exact absurd hxb hnb
  · intro hx
    exact ⟨Or.inl hx, fun hc => hfresh x hc hx⟩

/-- C10: calling `ExpandPool` on a CIDR already registered in the registry
walks the whole block first, adding every address not currently allocated to
the available set, and only then fails with the duplicate-CIDR error from the
final `AddCIDR` step; the additions are not rolled back. -/
theorem expandPool_duplicate (g : CIDRGuardian) (base p : ℕ)
    (hp : 1 ≤ p) (hp2 : p ≤ 32)
    (hdup : (base, p) ∈ g.managedCIDRs) :
    g.ExpandPool false base p =
      (.error (.duplicateCIDR (cidrStr base p)),
       ⟨⟨g.storage.available ∪
          ((blockAddrs (maskAddr p base) (2 ^ (32 - p))).toFinset.filter fun a =>
            a ∉ g.storage.allocated),
         g.storage.allocated⟩, g.managedCIDRs⟩) := by
  unfold CIDRGuardian.ExpandPool
  rw [expandPoolLoop_false]
  unfold CIDRGuardian.AddCIDR
  simp [hdup]

/-- C7: for every syntactically valid CIDR whose network address is not in
the allocated set, `ReleaseCIDR` fails with `NotAllocated` and returns the
pool exactly unchanged (available set, allocated map and registry). -/
theorem releaseCIDR_notAllocated (g : CIDRGuardian) (base p : ℕ)
    (h : maskAddr p base ∉ g.storage.allocated) :
    g.ReleaseCIDR false base p =
      (.error (.cidrNotAllocated (cidrStr base p)), g) := by
  unfold CIDRGuardian.ReleaseCIDR
  simp [MemoryIPStorage.GetAllocatedIPs, h]

/-- C6 (amended): `RemoveCIDR` performs no cancellation check before its
registry lookup.  With an already-cancelled context it returns `NotManaged`
when the CIDR is not registered, and the cancellation error (from the first
iteration of the address walk) when it is; the state is unchanged either
way.  The other public operations are not all cancellation-first either
(e.g. `ExpandPool` parses first), so the universally quantified claim fails
at `RemoveCIDR`. -/
theorem removeCIDR_cancelled_ctx (g : CIDRGuardian) (base p : ℕ)
    (hp : p ≤ 32) :
    g.RemoveCIDR true base p =
      ((if (base, p) ∈ g.managedCIDRs then .error PoolErr.cancelled
        else .error (.notManaged (cidrStr base p))), g) := by
  unfold CIDRGuardian.RemoveCIDR
  by_cases h : (base, p) ∈ g.managedCIDRs
  · obtain ⟨v, hv⟩ := Option.isSome_iff_exists.mp (AList.lookup_isSome.mpr h)
    rw [hv]
    obtain ⟨k, hk⟩ : ∃ k, 2 ^ (32 - p) = k + 1 :=
      ⟨2 ^ (32 - p) - 1, by have := Nat.pos_pow_of_pos (32 - p) (show 0 < 2 by norm_num); omega⟩
    have hblk : blockAddrs (maskAddr p base) (2 ^ (32 - p)) =
        (maskAddr p base + 0) ::
          (List.range k).map (fun i => maskAddr p base + (i + 1)) := by
      rw [hk]
      simp [blockAddrs, List.range_succ_eq_map, Function.comp]
    rw [hblk]
    simp [removeCIDRLoop, h]
  · rw [AList.lookup_eq_none.mpr h]
    simp [h]

/-- C5 (amended): on a pool whose available set is exactly `{a}`,
`AllocateCIDR(32, d)` and `AllocateIP(a, d)` both succeed with the same
resulting available set and the same allocated keys, but the descriptions
they record differ: `AllocateCIDR` records `"<a>/32 - <d>"` while
`AllocateIP` records `d`. -/
theorem allocateCIDR32_singleton (g : CIDRGuardian) (a : ℕ) (d : String)
    (hav : g.storage.available = {a}) :
    (g.AllocateCIDR false 32 d).1 = .ok (cidrStr a 32) ∧
    (g.AllocateIP false a d).1 = .ok () ∧
    (g.AllocateCIDR false 32 d).2.storage.available =
      (g.AllocateIP false a d).2.storage.available ∧
    (g.AllocateCIDR false 32 d).2.storage.allocated.keys =
      (g.AllocateIP false a d).2.storage.allocated.keys ∧
    (g.AllocateCIDR false 32 d).2.storage.allocated.lookup a =
      some (cidrStr a 32 ++ " - " ++ d) ∧
    (g.AllocateIP false a d).2.storage.allocated.lookup a = some d ∧
    (g.AllocateCIDR false 32 d).2.managedCIDRs = g.managedCIDRs := by
  have hmem : a ∈ g.storage.available := by rw [hav]; exact Finset.mem_singleton_self a
  have hmask : maskAddr 32 a = a := by simp [maskAddr]
  have hlist : finsetAscList g.storage.available = [a] := by
    rw [hav]
    rfl
  have hsort : sortIPStrings [a] = [a] := rfl
  have hr1 : List.range 1 = [0] := rfl
  have hblk : blockAddrs a (2 ^ (32 - 32)) = [a] := by
    rw [blockAddrs, show (2 : ℕ) ^ (32 - 32) = 1 by norm_num, hr1]
    simp
  have halloc : g.AllocateCIDR false 32 d =
      (.ok (cidrStr a 32),
       ⟨⟨g.storage.available.erase a,
         g.storage.allocated.insert a (cidrStr a 32 ++ " - " ++ d)⟩,
        g.managedCIDRs⟩) := by
    unfold CIDRGuardian.AllocateCIDR
    simp only [Bool.false_eq_true, if_false, MemoryIPStorage.GetAvailableIPs,
      hlist, hsort]
    rw [if_neg (by norm_num), if_neg (by norm_num)]
    have hfil : List.filter (fun x => maskAddr 32 x == x) [a] = [a] := by
      simp [maskAddr]
    rw [hfil, hsort]
    have hchk : allocCheckLoop false g.storage [a] = none :=
      allocCheckLoop_false_of_avail _ _ (by simpa using hmem)
    have hip : g.storage.AllocateIP false a (cidrStr a 32 ++ " - " ++ d) =
        .ok ⟨g.storage.available.erase a,
             g.storage.allocated.insert a (cidrStr a 32 ++ " - " ++ d)⟩ := by
      simp [MemoryIPStorage.AllocateIP, hmem]
    simp [hmask, hblk, hchk, hip, allocRemoveLoop, blockAddrs, hr1]
  have hipe : g.AllocateIP false a d =
      (.ok (), ⟨⟨g.storage.available.erase a,
                 g.storage.allocated.insert a d⟩, g.managedCIDRs⟩) := by
    unfold CIDRGuardian.AllocateIP
    simp [MemoryIPStorage.AllocateIP, hmem]
  rw [halloc, hipe]
  refine ⟨rfl, rfl, rfl, ?_, AList.lookup_insert _, AList.lookup_insert _, rfl⟩
  rw [AList.keys_insert, AList.keys_insert]

/-- C8: every mutating operation of the in-memory storage preserves
disjointness of the available and allocated sets, `AddIP`/`RemoveIP` touch
only the available set, and the only transitions between the sets are
available→allocated via `AllocateIP` and allocated→available via
`DeallocateIP` (the remaining operations are read-only). -/
theorem memoryStorage_disjoint_transitions (s s' : MemoryIPStorage)
    (ctx : Bool) (ip : ℕ) (d : String)
    (hinv : ∀ a, a ∈ s.available → a ∉ s.allocated) :
    (s.AddIP ctx ip = .ok s' →
      s'.allocated = s.allocated ∧ s'.available = insert ip s.available ∧
      ip ∉ s.allocated ∧ ∀ a, a ∈ s'.available → a ∉ s'.allocated) ∧
    (s.RemoveIP ctx ip = .ok s' →
      s'.allocated = s.allocated ∧ s'.available = s.available.erase ip ∧
      ∀ a, a ∈ s'.available → a ∉ s'.allocated) ∧
    (s.AllocateIP ctx ip d = .ok s' →
      ip ∈ s.available ∧ s'.available = s.available.erase ip ∧
      s'.allocated = s.allocated.insert ip d ∧
      ∀ a, a ∈ s'.available → a ∉ s'.allocated) ∧
    (s.DeallocateIP ctx ip = .ok s' →
      ip ∈ s.allocated ∧ s'.available = insert ip s.available ∧
      s'.allocated = s.allocated.erase ip ∧
      ∀ a, a ∈ s'.available → a ∉ s'.allocated) := by
  cases ctx with
  | true =>
    refine ⟨fun h => absurd h ?_, fun h => absurd h ?_,
      fun h => absurd h ?_, fun h => absurd h ?_⟩ <;>
      simp [MemoryIPStorage.AddIP, MemoryIPStorage.RemoveIP,
        MemoryIPStorage.AllocateIP, MemoryIPStorage.DeallocateIP]
  | false =>
    refine ⟨?_, ?_, ?_, ?_⟩
    · intro h
      by_cases hip : ip ∈ s.allocated
      · simp [MemoryIPStorage.AddIP, hip] at h
      · simp only [MemoryIPStorage.AddIP, Bool.false_eq_true, if_false,
          if_neg hip, Except.ok.injEq] at h
        subst h
        refine ⟨rfl, rfl, hip, ?_⟩
        intro a ha
        rcases Finset.mem_insert.mp ha with rfl | ha'
        · exact hip
        · exact hinv a ha'
    · intro h
      by_cases hip : ip ∈ s.available
      · simp only [MemoryIPStorage.RemoveIP, Bool.false_eq_true, if_false,
          if_pos hip, Except.ok.injEq] at h
        subst h
        exact ⟨rfl, rfl, fun a ha => hinv a (Finset.mem_of_mem_erase ha)⟩
      · simp [MemoryIPStorage.RemoveIP, hip] at h
    · intro h
      by_cases hip : ip ∈ s.available
      · simp only [MemoryIPStorage.AllocateIP, Bool.false_eq_true, if_false,
          if_pos hip, Except.ok.injEq] at h
        subst h
        refine ⟨hip, rfl, rfl, ?_⟩
        intro a ha
        rw [AList.mem_insert]
        rintro (rfl | hc)
        · exact absurd (Finset.mem_erase.mp ha).1 (by simp)
        · exact hinv a (Finset.mem_of_mem_erase ha) hc
      · simp [MemoryIPStorage.AllocateIP, hip] at h
    · intro h
      by_cases hip : ip ∈ s.allocated
      · simp only [MemoryIPStorage.DeallocateIP, Bool.false_eq_true, if_false,
          if_pos hip, Except.ok.injEq] at h
        subst h
        refine ⟨hip, rfl, rfl, ?_⟩
        intro a ha
        rw [AList.mem_erase]
        rcases Finset.mem_insert.mp ha with rfl | ha'
        · rintro ⟨hne, _⟩; exact hne rfl
        · rintro ⟨_, hc⟩; exact hinv a ha' hc
      · simp [MemoryIPStorage.DeallocateIP, hip] at h

theorem usedCIDRsLoop_exists_ok (l : List (Sigma fun _ : ℕ => String)) :
    ∀ acc : AList (fun _ : String => String),
      ∃ res, usedCIDRsLoop false acc l = .ok res := by
  induction l with
  | nil => intro acc; exact ⟨acc, rfl⟩
  | cons e rest ih =>
    intro acc
    cases hsp : splitDesc e.2 with
    | none => simpa [usedCIDRsLoop, hsp] using ih acc
    | some kv => simpa [usedCIDRsLoop, hsp] using ih (acc.insert kv.1 kv.2)

theorem usedCIDRsLoop_lookup (l : List (Sigma fun _ : ℕ => String)) :
    ∀ (acc res : AList (fun _ : String => String)),
      usedCIDRsLoop false acc l = .ok res →
      ∀ k v, res.lookup k = some v →
        (∃ e ∈ l, splitDesc e.2 = some (k, v)) ∨ acc.lookup k = some v := by
  induction l with
  | nil =>
    intro acc res h k v hl
    simp only [usedCIDRsLoop, Except.ok.injEq] at h
    subst h
    exact Or.inr hl
  | cons e rest ih =>
    intro acc res h k v hl
    cases hsp : splitDesc e.2 with
    | none =>
      simp only [usedCIDRsLoop, Bool.false_eq_true, if_false, hsp] at h
      rcases ih acc res h k v hl with ⟨e', he', hspl⟩ | hacc
      · exact Or.inl ⟨e', List.mem_cons_of_mem e he', hspl⟩
      · exact Or.inr hacc
    | some kv =>
      simp only [usedCIDRsLoop, Bool.false_eq_true, if_false, hsp] at h
      rcases ih _ res h k v hl with ⟨e', he', hspl⟩ | hacc
      · exact Or.inl ⟨e', List.mem_cons_of_mem e he', hspl⟩
      · by_cases hk : k = kv.1
        · subst hk
          rw [AList.lookup_insert] at hacc
          refine Or.inl ⟨e, List.mem_cons_self e rest, ?_⟩
          rw [hsp]
          cases hacc
          rfl
        · rw [AList.lookup_insert_ne hk] at hacc
          exact Or.inr hacc

theorem usedCIDRsLoop_mem_mono (l : List (Sigma fun _ : ℕ => String)) :
    ∀ (acc res : AList (fun _ : String => String)),
      usedCIDRsLoop false acc l = .ok res →
      ∀ k, k ∈ acc → k ∈ res := by
  induction l with
  | nil =>
    intro acc res h k hk
    simp only [usedCIDRsLoop, Except.ok.injEq] at h
    subst h
    exact hk
  | cons e rest ih =>
    intro acc res h k hk
    cases hsp : splitDesc e.2 with
    | none =>
      simp only [usedCIDRsLoop, Bool.false_eq_true, if_false, hsp] at h
      exact ih acc res h k hk
    | some kv =>
      simp only [usedCIDRsLoop, Bool.false_eq_true, if_false, hsp] at h
      exact ih _ res h k ((AList.mem_insert _).mpr (Or.inr hk))

theorem usedCIDRsLoop_mem_of_split (l : List (Sigma fun _ : ℕ => String)) :
    ∀ (acc res : AList (fun _ : String => String)),
      usedCIDRsLoop false acc l = .ok res →
      ∀ e ∈ l, ∀ k v, splitDesc e.2 = some (k, v) → k ∈ res := by
  induction l with
  | nil => intro acc res _ e he; exact absurd he (List.not_mem_nil e)
  | cons e' rest ih =>
    intro acc res h e he k v hsp
    rcases List.mem_cons.mp he with rfl | he'
    · simp only [usedCIDRsLoop, Bool.false_eq_true, if_false, hsp] at h
      exact usedCIDRsLoop_mem_mono rest _ res h k
        ((AList.mem_insert _).mpr (Or.inl rfl))
    · cases hsp' : splitDesc e'.2 with
      | none =>
        simp only [usedCIDRsLoop, Bool.false_eq_true, if_false, hsp'] at h
        exact ih acc res h e he' k v hsp
      | some kv =>
        simp only [usedCIDRsLoop, Bool.false_eq_true, if_false, hsp'] at h
        exact ih _ res h e he' k v hsp

/-- C9: every entry of the map returned by `GetUsedCIDRs` comes from an
allocated description containing the separator `" - "`, split at its first
occurrence into the entry's key (text before) and value (text after); and
every description containing the separator contributes its key to the
result.  Descriptions lacking the separator contribute no entry
(`splitDesc` is `none` exactly when `" - "` does not occur). -/
theorem getUsedCIDRs_separator (g : CIDRGuardian)
    (res : AList (fun _ : String => String))
    (h : g.GetUsedCIDRs false = .ok res) :
    (∀ k v, res.lookup k = some v →
      ∃ e ∈ g.storage.allocated.entries, splitDesc e.2 = some (k, v)) ∧
    (∀ e ∈ g.storage.allocated.entries, ∀ k v,
      splitDesc e.2 = some (k, v) → k ∈ res) := by
  unfold CIDRGuardian.GetUsedCIDRs at h
  simp only [Bool.false_eq_true, if_false, MemoryIPStorage.GetAllocatedIPs] at h
  constructor
  · intro k v hl
    rcases usedCIDRsLoop_lookup _ _ _ h k v hl with he | hacc
    · exact he
    · rw [AList.lookup_empty] at hacc; cases hacc
  · intro e he k v hsp
    exact usedCIDRsLoop_mem_of_split _ _ _ h e he k v hsp

/-- C1 (counterexample): in the scenario of the claim the second
`AllocateCIDR(30, "y")` does not return `"192.168.0.4/30"`. -/
theorem allocScenario_counterexample :
    ((pool192.AllocateCIDR false 30 "x").2.AllocateCIDR false 30 "y").1 ≠
      .ok "192.168.0.4/30" := by decide!

/-- C1 (amended): starting from a pool managing exactly `"192.168.0.0/24"`
with all 256 addresses available, `AllocateCIDR(30, "x")` returns
`"192.168.0.0/30"`, and a second `AllocateCIDR(30, "y")` returns
`"192.168.0.100/30"` — the smallest aligned available start in
string-lexicographic (not numeric) order. -/
theorem allocScenario_string_order :
    (pool192.AllocateCIDR false 30 "x").1 = .ok "192.168.0.0/30" ∧
    ((pool192.AllocateCIDR false 30 "x").2.AllocateCIDR false 30 "y").1 =
      .ok "192.168.0.100/30" := by
  exact ⟨by decide!, by decide!⟩

/-- C2 (witness): concrete instances of both failure modes. -/
theorem allocateCIDR_failure_modes_witness :
    poolOne.storage.available.card < 2 ^ (32 - 30) ∧
    poolOne.AllocateCIDR false 30 "w" = (.error (.noCapacity 30), poolOne) ∧
    2 ^ (32 - 30) ≤ poolSkew.storage.available.card ∧
    (∀ a ∈ poolSkew.storage.available, maskAddr 30 a ≠ a) ∧
    poolSkew.AllocateCIDR false 30 "w" = (.error .noAligned, poolSkew) :=
  ⟨by decide,
   (allocateCIDR_failure_modes poolOne 30 "w" (by norm_num)).1 (by decide),
   by decide, by decide,
   (allocateCIDR_failure_modes poolSkew 30 "w" (by norm_num)).2
     (by decide) (by decide)⟩

/-- C3 (counterexample): on a pool whose two available addresses lie in no
managed CIDR, `AllocateCIDR(31)` succeeds but the following `ReleaseCIDR`
does not restore `AvailableCount`. -/
theorem allocate_release_counterexample :
    (poolTwo.AllocateCIDR false 31 "x").1 = .ok "10.0.0.0/31" ∧
    ((poolTwo.AllocateCIDR false 31 "x").2.ReleaseCIDR false addr10 31).1 =
      .ok () ∧
    ((poolTwo.AllocateCIDR false 31 "x").2.ReleaseCIDR
      false addr10 31).2.AvailableCount false ≠
      poolTwo.AvailableCount false := by decide

/-- C3 (witness): the round trip at a pool whose addresses are covered by a
managed CIDR. -/
theorem allocate_release_roundtrip_witness :
    (∀ a, a ∈ poolQuad.storage.available → a ∉ poolQuad.storage.allocated) ∧
    (∀ a, a ∈ poolQuad.storage.available →
      inManagedRange poolQuad.managedCIDRs a = true) ∧
    (∃ startIP, "10.0.0.0/31" = cidrStr startIP 31 ∧
      (((poolQuad.AllocateCIDR false 31 "x").2.ReleaseCIDR
        false startIP 31).1 = .ok () ∧
      ((poolQuad.AllocateCIDR false 31 "x").2.ReleaseCIDR
        false startIP 31).2.AvailableCount false =
        poolQuad.AvailableCount false ∧
      ((poolQuad.AllocateCIDR false 31 "x").2.ReleaseCIDR
        false startIP 31).2.AllocatedCount false =
        poolQuad.AllocatedCount false)) := by
  refine ⟨by decide, by decide, ?_⟩
  have h1 : (poolQuad.AllocateCIDR false 31 "x").1 = Except.ok "10.0.0.0/31" := by
    decide
  obtain ⟨s, hs1, hs2, hs3, hs4⟩ := allocate_release_roundtrip poolQuad 31 "x"
    "10.0.0.0/31" (poolQuad.AllocateCIDR false 31 "x").2 (by norm_num)
    (by decide) (by decide) (Prod.ext h1 rfl)
  exact ⟨s, hs1, hs2, hs3, hs4⟩

/-- C4 (counterexample): when an address of the block is already available
before `AddCIDR`, the add/remove round trip loses it. -/
theorem addCIDR_removeCIDR_counterexample :
    (poolOne.AddCIDR false addr10 32 "d").1 = .ok () ∧
    ((poolOne.AddCIDR false addr10 32 "d").2.RemoveCIDR false addr10 32).1 =
      .ok () ∧
    ((poolOne.AddCIDR false addr10 32 "d").2.RemoveCIDR
      false addr10 32).2.AvailableCount false ≠
      poolOne.AvailableCount false := by decide

/-- C4 (witness): the round trip on an empty pool. -/
theorem addCIDR_removeCIDR_roundtrip_witness :
    ((addr10, 32) ∉ poolNil.managedCIDRs) ∧
    (∀ a ∈ blockAddrs (maskAddr 32 addr10) (2 ^ (32 - 32)),
      a ∉ poolNil.storage.available) ∧
    ((poolNil.AddCIDR false addr10 32 "d").1 = .ok () ∧
     ((poolNil.AddCIDR false addr10 32 "d").2.RemoveCIDR
       false addr10 32).1 = .ok () ∧
     ((poolNil.AddCIDR false addr10 32 "d").2.RemoveCIDR
       false addr10 32).2.storage.available = poolNil.storage.available) :=
  ⟨by decide, by decide,
   addCIDR_removeCIDR_roundtrip poolNil addr10 32 "d" (by norm_num)
     (by norm_num) (by decide) (by decide)⟩

/-- C5 (counterexample): the two operations record different descriptions for
the allocated address. -/
theorem allocateCIDR32_description_counterexample :
    (poolOne.AllocateCIDR false 32 "x").2.storage.allocated.lookup addr10 ≠
      (poolOne.AllocateIP false addr10 "x").2.storage.allocated.lookup addr10 := by
  decide

/-- C5 (witness): the amended equivalence at the singleton pool. -/
theorem allocateCIDR32_singleton_witness :
    poolOne.storage.available = {addr10} ∧
    ((poolOne.AllocateCIDR false 32 "x").1 = .ok (cidrStr addr10 32) ∧
     (poolOne.AllocateIP false addr10 "x").1 = .ok () ∧
     (poolOne.AllocateCIDR false 32 "x").2.storage.available =
       (poolOne.AllocateIP false addr10 "x").2.storage.available ∧
     (poolOne.AllocateCIDR false 32 "x").2.storage.allocated.keys =
       (poolOne.AllocateIP false addr10 "x").2.storage.allocated.keys ∧
     (poolOne.AllocateCIDR false 32 "x").2.storage.allocated.lookup addr10 =
       some (cidrStr addr10 32 ++ " - " ++ "x") ∧
     (poolOne.AllocateIP false addr10 "x").2.storage.allocated.lookup addr10 =
       some "x" ∧
     (poolOne.AllocateCIDR false 32 "x").2.managedCIDRs =
       poolOne.managedCIDRs) :=
  ⟨rfl, allocateCIDR32_singleton poolOne addr10 "x" rfl⟩

/-- C6 (counterexample): `RemoveCIDR` with an already-cancelled context and an
unregistered CIDR reports `NotManaged`, not the cancellation error. -/
theorem removeCIDR_cancelled_counterexample :
    (poolNil.RemoveCIDR true addr10 32).1 =
      .error (.notManaged (cidrStr addr10 32)) ∧
    (poolNil.RemoveCIDR true addr10 32).1 ≠ .error .cancelled := by decide

/-- C6 (witness): both sides of the registry test under a cancelled
context. -/
theorem removeCIDR_cancelled_ctx_witness :
    poolNil.RemoveCIDR true addr10 32 =
      (.error (.notManaged (cidrStr addr10 32)), poolNil) ∧
    poolReg31.RemoveCIDR true addr10 31 = (.error .cancelled, poolReg31) := by
  constructor
  · rw [removeCIDR_cancelled_ctx poolNil addr10 32 (by norm_num),
      if_neg (by decide)]
  · rw [removeCIDR_cancelled_ctx poolReg31 addr10 31 (by norm_num),
      if_pos (by decide)]

/-- C7 (witness): releasing an unallocated CIDR fails and changes nothing. -/
theorem releaseCIDR_notAllocated_witness :
    maskAddr 32 addr10 ∉ poolOne.storage.allocated ∧
    poolOne.ReleaseCIDR false addr10 32 =
      (.error (.cidrNotAllocated (cidrStr addr10 32)), poolOne) :=
  ⟨by decide, releaseCIDR_notAllocated poolOne addr10 32 (by decide)⟩

/-- C8 (witness): the storage transition facts at a concrete allocation. -/
theorem memoryStorage_disjoint_transitions_witness :
    (∀ a, a ∈ poolOne.storage.available → a ∉ poolOne.storage.allocated) ∧
    MemoryIPStorage.AllocateIP poolOne.storage false addr10 "x" =
      .ok ⟨∅, AList.insert addr10 "x" ∅⟩ ∧
    (addr10 ∈ poolOne.storage.available ∧
     (⟨∅, AList.insert addr10 "x" ∅⟩ : MemoryIPStorage).available =
       poolOne.storage.available.erase addr10 ∧
     (⟨∅, AList.insert addr10 "x" ∅⟩ : MemoryIPStorage).allocated =
       poolOne.storage.allocated.insert addr10 "x" ∧
     ∀ a, a ∈ (⟨∅, AList.insert addr10 "x" ∅⟩ : MemoryIPStorage).available →
       a ∉ (⟨∅, AList.insert addr10 "x" ∅⟩ : MemoryIPStorage).allocated) :=
  ⟨by decide, rfl,
   (memoryStorage_disjoint_transitions poolOne.storage
     ⟨∅, AList.insert addr10 "x" ∅⟩ false addr10 "x" (by decide)).2.2.1
     rfl⟩

/-- C9 (witness): the scan at a pool with one separator-carrying description
and one without. -/
theorem getUsedCIDRs_separator_witness :
    poolC9.GetUsedCIDRs false =
      .ok (AList.insert "10.0.0.0/30" "web" ∅) ∧
    ((∀ k v, (AList.insert "10.0.0.0/30" "web"
        (∅ : AList (fun _ : String => String))).lookup k = some v →
      ∃ e ∈ poolC9.storage.allocated.entries, splitDesc e.2 = some (k, v)) ∧
     (∀ e ∈ poolC9.storage.allocated.entries, ∀ k v,
      splitDesc e.2 = some (k, v) →
        k ∈ AList.insert "10.0.0.0/30" "web"
          (∅ : AList (fun _ : String => String)))) :=
  ⟨rfl, getUsedCIDRs_separator poolC9 _ rfl⟩

/-- C10 (witness): expanding an already-registered block fails with the
duplicate error while its additions to the available set persist. -/
theorem expandPool_duplicate_witness :
    ((addr10, 31) ∈ poolReg31.managedCIDRs) ∧
    poolReg31.ExpandPool false addr10 31 =
      (.error (.duplicateCIDR (cidrStr addr10 31)),
       ⟨⟨poolReg31.storage.available ∪
          ((blockAddrs (maskAddr 31 addr10) (2 ^ (32 - 31))).toFinset.filter
            fun a => a ∉ poolReg31.storage.allocated),
         poolReg31.storage.allocated⟩, poolReg31.managedCIDRs⟩) :=
  ⟨by decide,
   expandPool_duplicate poolReg31 addr10 31 (by norm_num) (by norm_num)
     (by decide)⟩
